import Mathlib

/-!
Verification of the zk-consensus repository's consensus core.

This file is a shallow embedding, in Lean 4, of the Rust sources
`src/types/mod.rs`, `src/zk_proof/mod.rs`, `src/storage/mod.rs` and
`src/consensus/mod.rs`.  Pure Rust functions become Lean functions;
the engine's message handlers become explicit state-passing functions
from a system state (consensus state plus storage) to a new system
state together with the list of broadcast effects.  Machine integers
are modelled as `Nat`/`Int` with explicit reductions where overflow
matters; `f64` values are modelled as their exact rational values
with IEEE 754 binary64 round-to-nearest-even applied after every
arithmetic operation; Rust `Result` values are modelled as `Except`.
One handler can also fail to terminate: the finality check holds a
read guard on the consensus state across an `await` of the write lock
on the same non-reentrant `RwLock`, so its quorum branch never
completes; that hang is modelled explicitly as a `deadlock` outcome
rather than as a returned state.

The external `bincode` serialization (used by `Block::hash` and for
Merkle leaves) is an opaque byte encoding; it is kept abstract as a
`Serializer` record that the embedded functions take as a parameter.
SHA-256 itself (the `sha2` crate) is implemented concretely below so
that hashing behaviour is computable.
-/

set_option maxRecDepth 100000

namespace ZkPov

/-! ## Bytes and SHA-256 (the `sha2` crate's SHA-256, implemented concretely) -/

abbrev Byte := Fin 256

def mkByte (n : Nat) : Byte := ⟨n % 256, Nat.mod_lt _ (by omega)⟩

/-- Truncation to 32 bits, the wrap-around of `u32` arithmetic. -/
def w32 (x : Nat) : Nat := x % 4294967296

def rotr (n x : Nat) : Nat := w32 ((x >>> n) ||| (x <<< (32 - n)))

def bsig0 (x : Nat) : Nat := (rotr 2 x) ^^^ (rotr 13 x) ^^^ (rotr 22 x)

def bsig1 (x : Nat) : Nat := (rotr 6 x) ^^^ (rotr 11 x) ^^^ (rotr 25 x)

def ssig0 (x : Nat) : Nat := (rotr 7 x) ^^^ (rotr 18 x) ^^^ (x >>> 3)

def ssig1 (x : Nat) : Nat := (rotr 17 x) ^^^ (rotr 19 x) ^^^ (x >>> 10)

def chf (e f g : Nat) : Nat := (e &&& f) ^^^ ((e ^^^ 4294967295) &&& g)

def majf (a b c : Nat) : Nat := (a &&& b) ^^^ (a &&& c) ^^^ (b &&& c)

/-- The 64 SHA-256 round constants, written in decimal. -/
def shaK : List Nat :=
  [1116352408, 1899447441, 3049323471, 3921009573, 961987163,
   1508970993, 2453635748, 2870763221, 3624381080, 310598401,
   607225278, 1426881987, 1925078388, 2162078206, 2614888103,
   3248222580, 3835390401, 4022224774, 264347078, 604807628,
   770255983, 1249150122, 1555081692, 1996064986, 2554220882,
   2821834349, 2952996808, 3210313671, 3336571891, 3584528711,
   113926993, 338241895, 666307205, 773529912, 1294757372,
   1396182291, 1695183700, 1986661051, 2177026350, 2456956037,
   2730485921, 2820302411, 3259730800, 3345764771, 3516065817,
   3600352804, 4094571909, 275423344, 430227734, 506948616,
   659060556, 883997877, 958139571, 1322822218, 1537002063,
   1747873779, 1955562222, 2024104815, 2227730452, 2361852424,
   2428436474, 2756734187, 3204031479, 3329325298]

/-- The eight SHA-256 initial hash words, written in decimal. -/
def shaH0 : List Nat :=
  [1779033703, 3144134277, 1013904242, 2773480762,
   1359893119, 2600822924, 528734635, 1541459225]

def u64be (n : Nat) : List Byte :=
  [mkByte (n >>> 56), mkByte (n >>> 48), mkByte (n >>> 40), mkByte (n >>> 32),
   mkByte (n >>> 24), mkByte (n >>> 16), mkByte (n >>> 8), mkByte n]

def padMessage (msg : List Byte) : List Byte :=
  let r := msg.length % 64
  msg ++ (mkByte 0x80) :: List.replicate ((119 - r) % 64) (mkByte 0) ++ u64be (8 * msg.length)

def toWords : List Byte → List Nat
  | a :: b :: c :: d :: rest =>
      ((a.val <<< 24) ||| (b.val <<< 16) ||| (c.val <<< 8) ||| d.val) :: toWords rest
  | _ => []

def scheduleGo : Nat → List Nat → List Nat
  | 0, acc => acc
  | n + 1, acc =>
      let i := acc.length
      scheduleGo n (acc ++ [w32 (ssig1 (acc.getD (i - 2) 0) + acc.getD (i - 7) 0 +
        ssig0 (acc.getD (i - 15) 0) + acc.getD (i - 16) 0)])

def schedule (ws : List Nat) : List Nat := scheduleGo 48 ws

def roundStep (st : List Nat) (kw : Nat × Nat) : List Nat :=
  match st with
  | [a, b, c, d, e, f, g, h] =>
      let t1 := w32 (h + bsig1 e + chf e f g + kw.1 + kw.2)
      let t2 := w32 (bsig0 a + majf a b c)
      [w32 (t1 + t2), a, b, c, w32 (d + t1), e, f, g]
  | other => other

def processChunk (H : List Nat) (chunk : List Byte) : List Nat :=
  let st := (shaK.zip (schedule (toWords chunk))).foldl roundStep H
  (H.zip st).map (fun p => w32 (p.1 + p.2))

/-- Fuel-indexed splitting into 64-byte chunks; the fuel is structural so the
kernel can evaluate it.  Fuel equal to the list length always suffices, since
every recursive call consumes 64 bytes. -/
def toChunksF : Nat → List Byte → List (List Byte)
  | 0, _ => []
  | _, [] => []
  | fuel + 1, l => l.take 64 :: toChunksF fuel (l.drop 64)

def sha256 (msg : List Byte) : List Byte :=
  ((toChunksF (padMessage msg).length (padMessage msg)).foldl processChunk shaH0).flatMap
    (fun w => [mkByte (w >>> 24), mkByte (w >>> 16), mkByte (w >>> 8), mkByte w])

/-! ## Little-endian integer encodings (`u64::to_le_bytes`, `i64::to_le_bytes`) -/

def u64le (n : Nat) : List Byte :=
  [mkByte n, mkByte (n >>> 8), mkByte (n >>> 16), mkByte (n >>> 24),
   mkByte (n >>> 32), mkByte (n >>> 40), mkByte (n >>> 48), mkByte (n >>> 56)]

/-- Little-endian bytes of an `i64`, via its two's-complement value. -/
def i64le (n : Int) : List Byte := u64le (Int.emod n 18446744073709551616).toNat

/-! ## Data model (`src/types/mod.rs`)

Timestamps (`chrono::DateTime<Utc>`) are modelled as `Int` nanoseconds since
the epoch, and `chrono::Duration` values as `Int` nanoseconds, which is the
resolution chrono itself uses.  `DateTime::timestamp()` is the floor of the
nanosecond value divided by 10^9. -/

abbrev Hash32 := List Byte

abbrev NodeId := List Byte

def tsSeconds (t : Int) : Int := Int.fdiv t 1000000000

inductive ProofType where
  | Groth16
  | Plonk
  | Nova
deriving DecidableEq

structure ZKProof where
  proof_data : List Byte
  public_inputs : List Byte
  verification_key : List Byte
  proof_type : ProofType
deriving DecidableEq

structure Transaction where
  id : Hash32
  from_addr : Hash32
  to_addr : Hash32
  amount : Nat
  timestamp : Int
  signature : List Byte
deriving DecidableEq

structure BlockHeader where
  block_number : Nat
  parent_hash : Hash32
  timestamp : Int
  merkle_root : Hash32
  validator : NodeId
  difficulty : Nat
  nonce : Nat
deriving DecidableEq

structure Block where
  header : BlockHeader
  transactions : List Transaction
  zk_proof : ZKProof
deriving DecidableEq

inductive VoteType where
  | Approve
  | Reject
  | Abstain
deriving DecidableEq

structure BlockVote where
  block_hash : Hash32
  validator : NodeId
  vote : VoteType
  timestamp : Int
  signature : List Byte
deriving DecidableEq

structure ValidatorInfo where
  stake : Nat
  is_active : Bool
  last_block_time : Int
  performance_score : ℚ
deriving DecidableEq

structure ConsensusState where
  current_block : Nat
  validators : List (NodeId × ValidatorInfo)
  total_stake : Nat
  epoch : Nat
deriving DecidableEq

structure ProofRequest where
  block_number : Nat
  request_id : Hash32
  requester : NodeId
deriving DecidableEq

structure ProofResponse where
  request_id : Hash32
  proof : ZKProof
  responder : NodeId
deriving DecidableEq

inductive ConsensusMessage where
  | NewBlock (block : Block)
  | BlockVote (vote : BlockVote)
  | ConsensusState (state : ConsensusState)
  | ZKProofRequest (request : ProofRequest)
  | ZKProofResponse (response : ProofResponse)
deriving DecidableEq

/-- Bincode serialization (the external `bincode` crate) is an opaque byte
encoding of the three shapes of value the sources serialize; it is kept
abstract and passed as a parameter to every function that hashes through it. -/
structure Serializer where
  header : BlockHeader → List Byte
  txList : List Transaction → List Byte
  tx : Transaction → List Byte

/-- `Block::hash` from `src/types/mod.rs`: SHA-256 over the bincode bytes of
the header followed by the bincode bytes of the transaction list. -/
def Block.hash (ser : Serializer) (b : Block) : Hash32 :=
  sha256 (ser.header b.header ++ ser.txList b.transactions)

/-! ## IEEE 754 binary64 (`f64`) modelled on exact rationals

Every finite `f64` is a dyadic rational.  The model keeps the exact rational
value and applies binary64 round-to-nearest-even after each arithmetic
operation, which is exactly what Rust's `f64` addition and subtraction do in
the value range exercised here (normal, far from overflow and underflow). -/

def log2F : Nat → Nat → Nat
  | 0, _ => 0
  | fuel + 1, n => if 2 ≤ n then log2F fuel (n / 2) + 1 else 0

/-- Floor of the base-2 logarithm, with structural fuel so it evaluates. -/
def nlog2 (n : Nat) : Nat := log2F n n

def intFloorQ (q : ℚ) : Int := Int.fdiv q.num q.den

/-- Round a rational to the nearest integer, ties to even. -/
def rdHalfEven (x : ℚ) : Int :=
  let f := intFloorQ x
  let r := x - (f : ℚ)
  if r < 1/2 then f else if 1/2 < r then f + 1 else if f % 2 = 0 then f else f + 1

/-- For `q > 0`, the exponent `e` with `2 ^ e ≤ q < 2 ^ (e + 1)`. -/
def ratExp2 (q : ℚ) : Int :=
  if 1 ≤ q then
    Int.ofNat (nlog2 (q.num.natAbs / q.den))
  else
    let k := nlog2 (q.den / q.num.natAbs)
    if q = 1 / ((2 ^ k : Nat) : ℚ) then -(k : Int) else -(k : Int) - 1

def pow2Q (e : Int) : ℚ :=
  if 0 ≤ e then ((2 ^ e.toNat : Nat) : ℚ) else 1 / ((2 ^ (-e).toNat : Nat) : ℚ)

/-- Round a positive rational to 53 significant bits, nearest, ties to even. -/
def roundPosF64 (q : ℚ) : ℚ :=
  let scale := pow2Q (52 - ratExp2 q)
  ((rdHalfEven (q * scale) : ℚ)) / scale

/-- Binary64 rounding of an exact rational (normal range). -/
def roundF64 (q : ℚ) : ℚ :=
  if q = 0 then 0 else if 0 < q then roundPosF64 q else -(roundPosF64 (-q))

def fadd (x y : ℚ) : ℚ := roundF64 (x + y)

def fsub (x y : ℚ) : ℚ := roundF64 (x - y)

/-- `f64::min` on non-NaN values is the numeric minimum. -/
def fminQ (x y : ℚ) : ℚ := if x ≤ y then x else y

/-- `f64::max` on non-NaN values is the numeric maximum. -/
def fmaxQ (x y : ℚ) : ℚ := if y ≤ x then x else y

/-- The value of the `f64` literal `0.1`. -/
def lit01 : ℚ := roundF64 (1/10)

/-- The value of the `f64` literal `0.05`. -/
def lit005 : ℚ := roundF64 (1/20)

/-! ## Storage (`src/storage/mod.rs`)

The `HashMap`s of the mock storage are modelled as association lists whose
insert removes any previous binding of the key, which is `HashMap::insert`'s
behaviour.  Vote keys are the actual strings the source builds with
`format!("{}:{}", hex::encode(block_hash), hex::encode(validator))`,
modelled as lists of characters. -/

def hexDigit (n : Fin 16) : Char :=
  "0123456789abcdef".toList.getD n.val '0'

/-- Lowercase hex encoding of a byte string (`hex::encode`). -/
def hexEncode (bs : List Byte) : List Char :=
  bs.flatMap (fun b => [hexDigit ⟨b.val / 16, by omega⟩, hexDigit ⟨b.val % 16, by omega⟩])

/-- The vote-store key `format!("{}:{}", hex::encode(h), hex::encode(v))`. -/
def mkVoteKey (v : BlockVote) : List Char :=
  hexEncode v.block_hash ++ ':' :: hexEncode v.validator

structure StorageManager where
  blocks : List (Nat × Block)
  votes : List (List Char × BlockVote)
  pending_transactions : List Transaction
  consensus_state : Option ConsensusState
deriving DecidableEq

def StorageManager.new : StorageManager :=
  { blocks := [], votes := [], pending_transactions := [], consensus_state := none }

def store_block (s : StorageManager) (b : Block) : StorageManager :=
  { s with blocks := (b.header.block_number, b) ::
      s.blocks.filter (fun p => decide (p.1 ≠ b.header.block_number)) }

def get_block (s : StorageManager) (block_number : Nat) : Option Block :=
  (s.blocks.find? (fun p => decide (p.1 = block_number))).map Prod.snd

/-- `get_latest_block`: the block stored under the maximum key, if any. -/
def get_latest_block (s : StorageManager) : Option Block :=
  match (s.blocks.map Prod.fst).max? with
  | none => none
  | some k => (s.blocks.find? (fun p => decide (p.1 = k))).map Prod.snd

def store_vote (s : StorageManager) (v : BlockVote) : StorageManager :=
  { s with votes := (mkVoteKey v, v) ::
      s.votes.filter (fun p => decide (p.1 ≠ mkVoteKey v)) }

/-- `get_votes_for_block`: every stored vote whose key starts with the hex
encoding of the queried block hash. -/
def get_votes_for_block (s : StorageManager) (block_hash : Hash32) : List BlockVote :=
  ((s.votes.filter (fun p => (hexEncode block_hash).isPrefixOf p.1)).map Prod.snd)

def get_pending_transactions (s : StorageManager) : List Transaction :=
  s.pending_transactions

/-! ## ZK proof module (`src/zk_proof/mod.rs`) -/

/-- `ZKProofGenerator::verify_proof`: the mock acceptance rule.  The Rust
function returns `Result<bool>` and its body only ever returns `Ok`. -/
def verify_proof (zk_proof : ZKProof) : Except String Bool :=
  .ok (!zk_proof.proof_data.isEmpty && !zk_proof.public_inputs.isEmpty &&
       decide (64 ≤ zk_proof.proof_data.length))

/-- `hash_block_content`: SHA-256 over selected raw header fields. -/
def hash_block_content (b : Block) : Hash32 :=
  sha256 (u64le b.header.block_number ++ b.header.parent_hash ++ b.header.merkle_root ++
    i64le (tsSeconds b.header.timestamp) ++ b.header.validator)

/-- `generate_deterministic_proof`: block hash, 28 derived bytes, then the
little-endian bytes of `(hash[0] as u64) * 1000`. -/
def generate_deterministic_proof (block_hash : Hash32) : List Byte :=
  block_hash ++
    (List.range 28).map (fun i => mkByte ((block_hash.getD (i % 32) 0).val + i)) ++
    u64le ((block_hash.headD 0).val * 1000)

def generate_verification_key (block_hash : Hash32) : List Byte :=
  block_hash ++ block_hash.take 32

/-- `extract_public_inputs`: block number, Merkle root, timestamp seconds. -/
def extract_public_inputs (b : Block) : List Byte :=
  u64le b.header.block_number ++ b.header.merkle_root ++ i64le (tsSeconds b.header.timestamp)

/-- `ZKProofGenerator::generate_proof` (deterministic mock). -/
def generate_proof (b : Block) : ZKProof :=
  let block_hash := hash_block_content b
  { proof_data := generate_deterministic_proof block_hash
    public_inputs := extract_public_inputs b
    verification_key := generate_verification_key block_hash
    proof_type := .Groth16 }

/-! ## Merkle aggregation (`calculate_merkle_root` in `src/consensus/mod.rs`) -/

/-- The all-zero hash `[0; 32]`. -/
def zeroHash : Hash32 := List.replicate 32 (0 : Byte)

/-- One level of the Merkle tree: `chunks(2)` with the chunk hashed;
a trailing odd chunk is paired with itself. -/
def pairUp : List Hash32 → List Hash32
  | a :: b :: rest => sha256 (a ++ b) :: pairUp rest
  | [a] => [sha256 (a ++ a)]
  | [] => []

/-- The `while hashes.len() > 1` loop, with structural fuel; each pass at
least halves a list of two or more hashes, so fuel equal to the initial
length always suffices. -/
def merkleLoopF : Nat → List Hash32 → List Hash32
  | 0, hs => hs
  | fuel + 1, hs => if 1 < hs.length then merkleLoopF fuel (pairUp hs) else hs

/-- `calculate_merkle_root`: the all-zero hash for the empty sequence, else
the bottom-up binary Merkle tree over the SHA-256 leaf hashes of the
bincode-serialized transactions. -/
def calculate_merkle_root (ser : Serializer) (transactions : List Transaction) : Hash32 :=
  if transactions.isEmpty then zeroHash
  else
    let hashes := transactions.map (fun tx => sha256 (ser.tx tx))
    (merkleLoopF hashes.length hashes).headD zeroHash

/-! ## Consensus engine (`src/consensus/mod.rs`)

The engine's mutable state — the `ConsensusState` behind the lock plus the
storage — is threaded explicitly.  Handlers return `Except String` mirroring
the Rust `Result`, together with the messages handed to the broadcast stubs.
`Utc::now()` becomes an explicit `now` parameter (nanoseconds). -/

/-- `ConsensusEngine::new` sets `min_validators: 3`. -/
def min_validators : Nat := 3

/-- `ConsensusEngine::new` sets `block_time: Duration::seconds(12)`;
modelled in nanoseconds. -/
def block_time : Int := 12000000000

/-- `Duration::minutes(5)` in nanoseconds. -/
def five_minutes : Int := 300000000000

/-- The engine's paired state: the `ConsensusState` plus the storage. -/
structure SysState where
  consensus : ConsensusState
  storage : StorageManager
deriving DecidableEq

/-- Messages handed to the broadcast stubs while a handler ran. -/
structure Sent where
  votes : List BlockVote := []
  blocks : List Block := []
deriving DecidableEq

/-- The initial state built by `ConsensusEngine::new` and `StorageManager::new`. -/
def initialState : SysState :=
  { consensus := { current_block := 0, validators := [], total_stake := 0, epoch := 0 }
    storage := StorageManager.new }

def lookupValidator (vs : List (NodeId × ValidatorInfo)) (k : NodeId) : Option ValidatorInfo :=
  (vs.find? (fun p => decide (p.1 = k))).map Prod.snd

/-- `verify_vote_signature`: the stand-in that accepts every vote. -/
def verify_vote_signature (_vote : BlockVote) : Except String Bool := .ok true

/-- `verify_block_structure`: height must be `current_block + 1`; the parent
hash is compared against the latest stored block's hash only when such a
block exists; the Merkle root must match the recomputation. -/
def verify_block_structure (ser : Serializer) (state : ConsensusState)
    (storage : StorageManager) (block : Block) : Bool :=
  if block.header.block_number ≠ state.current_block + 1 then false
  else
    match get_latest_block storage with
    | some last_block =>
        if block.header.parent_hash ≠ Block.hash ser last_block then false
        else block.header.merkle_root = calculate_merkle_root ser block.transactions
    | none => block.header.merkle_root = calculate_merkle_root ser block.transactions

/-- `check_block_finality`: count the `Approve` votes stored for the hash.
Below `min_validators` the function completes with the state untouched.  At
or above `min_validators` the source (consensus/mod.rs lines 313-330) still
holds the read guard it took on `self.state` at line 315 when it awaits
`self.state.write()` at line 325; the tokio `RwLock` is not reentrant, the
`let mut state` binding only shadows the live read guard, so the write
acquisition waits on the caller's own read guard forever.  The quorum branch
therefore never completes and `current_block += 1` is never executed; the
branch is modelled as `none` (no resulting state). -/
def check_block_finality (state : ConsensusState) (storage : StorageManager)
    (block_hash : Hash32) : Option ConsensusState :=
  let votes := get_votes_for_block storage block_hash
  let approve_votes := (votes.filter (fun v => decide (v.vote = VoteType.Approve))).length
  if min_validators ≤ approve_votes then
    none
  else some state

/-- The observable outcome of running one message handler to quiescence:
`ok` and `error` mirror the `Result` it returns; `deadlock` is a handler that
never returns, carrying the state the system is left with — mutations made
before the blocked await (a vote already persisted to the shared storage)
persist, while the consensus state stays at its prior value forever. -/
inductive HandlerOutcome where
  | ok (st : SysState) (sent : Sent)
  | error (e : String)
  | deadlock (st : SysState) (sent : Sent)
deriving DecidableEq

/-- `handle_new_block`: verify the proof, verify the structure, store the
block, build an `Approve` vote and hand it to `broadcast_vote`. -/
def handle_new_block (ser : Serializer) (now : Int) (node_id : NodeId)
    (st : SysState) (block : Block) : Except String (SysState × Sent) :=
  match verify_proof block.zk_proof with
  | .error e => .error e
  | .ok ok =>
    if !ok then .ok (st, {}) else
    if !(verify_block_structure ser st.consensus st.storage block) then .ok (st, {}) else
      let storage' := store_block st.storage block
      let vote : BlockVote :=
        { block_hash := Block.hash ser block, validator := node_id,
          vote := .Approve, timestamp := now, signature := [] }
      .ok ({ st with storage := storage' }, { votes := [vote] })

/-- `handle_block_vote`: verify the signature (always accepted), store the
vote, then run the finality check for the vote's block hash.  When the
finality check hits the quorum branch it self-deadlocks (see
`check_block_finality`): the vote is already persisted, the consensus state
is never touched, and the handler never returns. -/
def handle_block_vote (st : SysState) (vote : BlockVote) : HandlerOutcome :=
  match verify_vote_signature vote with
  | .error e => .error e
  | .ok okSig =>
    if !okSig then .ok st {} else
      let storage' := store_vote st.storage vote
      match check_block_finality st.consensus storage' vote.block_hash with
      | some consensus' => .ok { consensus := consensus', storage := storage' } {}
      | none => .deadlock { consensus := st.consensus, storage := storage' } {}

/-- `handle_consensus_state`: wholesale replacement of the local state. -/
def handle_consensus_state (st : SysState) (state : ConsensusState) :
    Except String (SysState × Sent) :=
  .ok ({ st with consensus := state }, {})

/-- `handle_proof_request`: generate a proof for a stored block; the response
is built but never sent (the network response is a TODO in the source), so
the state is unchanged. -/
def handle_proof_request (node_id : NodeId) (st : SysState) (request : ProofRequest) :
    Except String (SysState × Sent) :=
  match get_block st.storage request.block_number with
  | some block =>
      let _response : ProofResponse :=
        { request_id := request.request_id, proof := generate_proof block,
          responder := node_id }
      .ok (st, {})
  | none => .ok (st, {})

/-- `handle_proof_response`: verify and log; no state mutation either way. -/
def handle_proof_response (st : SysState) (response : ProofResponse) :
    Except String (SysState × Sent) :=
  match verify_proof response.proof with
  | .error e => .error e
  | .ok _ => .ok (st, {})

/-- A handler that can only complete or error, viewed as an outcome. -/
def liftResult : Except String (SysState × Sent) → HandlerOutcome
  | .ok (st, sent) => .ok st sent
  | .error e => .error e

/-- `handle_message`: dispatch on the message variant.  Every handler except
the vote handler always completes; the vote handler can hang in the finality
deadlock. -/
def handle_message (ser : Serializer) (now : Int) (node_id : NodeId)
    (st : SysState) (message : ConsensusMessage) : HandlerOutcome :=
  match message with
  | .NewBlock block => liftResult (handle_new_block ser now node_id st block)
  | .BlockVote vote => handle_block_vote st vote
  | .ConsensusState state => liftResult (handle_consensus_state st state)
  | .ZKProofRequest request => liftResult (handle_proof_request node_id st request)
  | .ZKProofResponse response => liftResult (handle_proof_response st response)

/-- `should_propose_block`: requires only that this node's id is a key of the
validator map, and that, when a latest block exists, at least `block_time`
has elapsed since its timestamp. -/
def should_propose_block (now : Int) (node_id : NodeId) (st : SysState) : Bool :=
  if (lookupValidator st.consensus.validators node_id).isNone then false
  else
    match get_latest_block st.storage with
    | some last_block =>
        if now - last_block.header.timestamp < block_time then false else true
    | none => true

/-- `calculate_difficulty`: the fixed mock difficulty. -/
def calculate_difficulty : Nat := 1000

/-- `propose_new_block`: build the next block from pending transactions,
attach a generated proof, store it and hand it to `broadcast_block`. -/
def propose_new_block (ser : Serializer) (now : Int) (node_id : NodeId)
    (st : SysState) : SysState × Sent :=
  let block_number := st.consensus.current_block + 1
  let transactions := get_pending_transactions st.storage
  let parent_hash :=
    match get_latest_block st.storage with
    | some last_block => Block.hash ser last_block
    | none => zeroHash
  let merkle_root := calculate_merkle_root ser transactions
  let header : BlockHeader :=
    { block_number := block_number, parent_hash := parent_hash, timestamp := now,
      merkle_root := merkle_root, validator := node_id,
      difficulty := calculate_difficulty, nonce := 0 }
  let block0 : Block :=
    { header := header, transactions := transactions,
      zk_proof := { proof_data := [], public_inputs := [], verification_key := [],
                    proof_type := .Groth16 } }
  let block := { block0 with zk_proof := generate_proof block0 }
  ({ st with storage := store_block st.storage block }, { blocks := [block] })

/-- `update_consensus_state`: the per-tick performance-score update of every
validator, with `f64` arithmetic. -/
def updateValidatorScore (now : Int) (v : ValidatorInfo) : ValidatorInfo :=
  if now - v.last_block_time < five_minutes then
    { v with performance_score := fminQ (fadd v.performance_score lit01) 1 }
  else
    { v with performance_score := fmaxQ (fsub v.performance_score lit005) 0 }

def update_consensus_state (now : Int) (state : ConsensusState) : ConsensusState :=
  { state with validators := state.validators.map (fun p => (p.1, updateValidatorScore now p.2)) }

/-- `tick`: propose if due, then update the consensus state. -/
def tick (ser : Serializer) (now : Int) (node_id : NodeId) (st : SysState) :
    SysState × Sent :=
  let (st1, sent) :=
    if should_propose_block now node_id st then propose_new_block ser now node_id st
    else (st, {})
  ({ st1 with consensus := update_consensus_state now st1.consensus }, sent)

/-! ## Shared concrete fixtures for witnesses and counterexamples -/

/-- A trivial concrete instance of the abstract bincode serializer, used to
evaluate handlers at concrete inputs. -/
def serTriv : Serializer :=
  { header := fun _ => [], txList := fun _ => [], tx := fun _ => [] }

def tx0 : Transaction :=
  { id := [], from_addr := [], to_addr := [], amount := 0, timestamp := 0, signature := [] }

def node0 : NodeId := List.replicate 32 (0 : Byte)

def node1 : NodeId := List.replicate 32 (1 : Byte)

def node2 : NodeId := List.replicate 32 (2 : Byte)

def node3 : NodeId := List.replicate 32 (3 : Byte)

def hash0 : Hash32 := List.replicate 32 (7 : Byte)

/-! ## C7 -/

/-- C7: `verify_proof` never returns an error on any structurally valid
`ZKProof` value, and its verdict is `true` exactly when `proof_data` is
non-empty, `public_inputs` is non-empty, and `proof_data` is at least
64 bytes long; it is a pure function, so it has no side effects. -/
theorem c7_verify_proof_total_boolean (p : ZKProof) :
    (∃ b, verify_proof p = .ok b) ∧
    (verify_proof p = .ok true ↔
      p.proof_data ≠ [] ∧ p.public_inputs ≠ [] ∧ 64 ≤ p.proof_data.length) := by
  refine ⟨⟨_, rfl⟩, ?_⟩
  simp [verify_proof, List.isEmpty_iff, and_assoc]

/-- C7 exercised at a concrete input: a 64-byte proof with one public input
byte is accepted. -/
theorem c7_verify_proof_total_boolean_witness :
    verify_proof { proof_data := List.replicate 64 (0 : Byte), public_inputs := [0],
                   verification_key := [], proof_type := .Groth16 } = .ok true :=
  (c7_verify_proof_total_boolean _).2.mpr (by refine ⟨by decide, by decide, by decide⟩)

/-! ## C5 -/

/-- C5 counterexample: for the one-element transaction sequence `[tx0]` (under
a concrete serialization), `calculate_merkle_root` is NOT the SHA-256
combination of the leaf hash with itself: the `while hashes.len() > 1` loop
never runs for a single leaf, so no self-pairing happens. -/
theorem c5_counterexample :
    calculate_merkle_root serTriv [tx0] ≠
      sha256 (sha256 (serTriv.tx tx0) ++ sha256 (serTriv.tx tx0)) := by
  decide

/-- C5 amended: for every single-transaction sequence `[t]`,
`calculate_merkle_root` returns the leaf hash `sha256(serialize(t))` alone;
the duplicate-last-node self-pairing applies only inside levels of two or
more nodes. -/
theorem c5_merkle_singleton_is_leaf_hash (ser : Serializer) (t : Transaction) :
    calculate_merkle_root ser [t] = sha256 (ser.tx t) := by
  simp [calculate_merkle_root, merkleLoopF]

/-! ## C2 -/

/-- The number of `Approve` votes stored for a block hash, exactly as
`check_block_finality` counts them. -/
def approveCountFor (s : StorageManager) (block_hash : Hash32) : Nat :=
  ((get_votes_for_block s block_hash).filter (fun v => decide (v.vote = VoteType.Approve))).length

/-- Replaying a sequence of `store_vote` calls against a fresh store. -/
def applyVotes (vs : List BlockVote) : StorageManager :=
  vs.foldl store_vote StorageManager.new

def mkApproveVote (h : Hash32) (val : NodeId) : BlockVote :=
  { block_hash := h, validator := val, vote := .Approve, timestamp := 0, signature := [] }

/-- `handle_block_vote` reduced past the always-accepting signature check. -/
lemma handle_block_vote_eq (st : SysState) (vote : BlockVote) :
    handle_block_vote st vote =
      match check_block_finality st.consensus (store_vote st.storage vote) vote.block_hash with
      | some consensus' => .ok { consensus := consensus', storage := store_vote st.storage vote } {}
      | none => .deadlock { consensus := st.consensus, storage := store_vote st.storage vote } {} :=
  rfl

/-- At quorum the finality check self-deadlocks: the handler never returns,
with the vote persisted and the consensus state untouched. -/
lemma hbv_deadlock_of_quorum (st : SysState) (vote : BlockVote)
    (hc : 3 ≤ approveCountFor (store_vote st.storage vote) vote.block_hash) :
    handle_block_vote st vote =
      .deadlock { consensus := st.consensus, storage := store_vote st.storage vote } {} := by
  have hnone : check_block_finality st.consensus (store_vote st.storage vote)
      vote.block_hash = none := by
    simp only [check_block_finality, approveCountFor, min_validators] at hc ⊢
    rw [if_pos hc]
  rw [handle_block_vote_eq, hnone]

/-- Below quorum the handler completes with the consensus state untouched. -/
lemma hbv_ok_of_subquorum (st : SysState) (vote : BlockVote)
    (hc : approveCountFor (store_vote st.storage vote) vote.block_hash < 3) :
    handle_block_vote st vote =
      .ok { consensus := st.consensus, storage := store_vote st.storage vote } {} := by
  have hsome : check_block_finality st.consensus (store_vote st.storage vote)
      vote.block_hash = some st.consensus := by
    simp only [check_block_finality, approveCountFor, min_validators] at hc ⊢
    rw [if_neg (by omega)]
  rw [handle_block_vote_eq, hsome]

/-- C2 (code bug): handling a `BlockVote` stores it and counts the stored
`Approve` votes for its hash, and the decision is strictly by that count,
never by stake weight — but the claimed "+1 at quorum" never happens.  When
the count reaches 3 the quorum branch of `check_block_finality` awaits the
write lock while its own read guard is still held, so the handler
self-deadlocks: it never returns and `current_block` is never incremented.
Below 3 the handler completes with `current_block` unchanged. -/
theorem c2_quorum_deadlock (st : SysState) (vote : BlockVote) :
    (3 ≤ approveCountFor (store_vote st.storage vote) vote.block_hash →
      handle_block_vote st vote =
        .deadlock { consensus := st.consensus, storage := store_vote st.storage vote } {}) ∧
    (approveCountFor (store_vote st.storage vote) vote.block_hash < 3 →
      handle_block_vote st vote =
        .ok { consensus := st.consensus, storage := store_vote st.storage vote } {}) :=
  ⟨hbv_deadlock_of_quorum st vote, hbv_ok_of_subquorum st vote⟩

/-- C2's failing input evaluated: with two `Approve` votes already stored
for `hash0`, the third `Approve` vote is persisted and then the handler
hangs — the height never advances from 0. -/
theorem c2_quorum_deadlock_witness :
    handle_block_vote
        { consensus := initialState.consensus,
          storage := applyVotes [mkApproveVote hash0 node1, mkApproveVote hash0 node2] }
        (mkApproveVote hash0 node3) =
      .deadlock { consensus := initialState.consensus,
                  storage := store_vote
                    (applyVotes [mkApproveVote hash0 node1, mkApproveVote hash0 node2])
                    (mkApproveVote hash0 node3) } {} :=
  (c2_quorum_deadlock
    { consensus := initialState.consensus,
      storage := applyVotes [mkApproveVote hash0 node1, mkApproveVote hash0 node2] }
    (mkApproveVote hash0 node3)).1 (by decide)

/-! ## C8 -/

/-- C8: a `NewBlock` whose proof verification returns `false`, or whose
structural verification returns `false`, makes `handle_new_block` return
success with the system state exactly unchanged: no block stored, no vote
stored, no vote broadcast. -/
theorem c8_validation_failure_atomic (ser : Serializer) (now : Int) (node_id : NodeId)
    (st : SysState) (block : Block)
    (h : verify_proof block.zk_proof = .ok false ∨
         verify_block_structure ser st.consensus st.storage block = false) :
    handle_new_block ser now node_id st block = .ok (st, {}) := by
  rcases h with h | h
  · simp [handle_new_block, h]
  · simp only [handle_new_block, verify_proof, h]
    cases (!block.zk_proof.proof_data.isEmpty && !block.zk_proof.public_inputs.isEmpty &&
      decide (64 ≤ block.zk_proof.proof_data.length)) <;> simp

/-- C8 exercised concretely: a block with an empty proof is rejected with no
state change and no broadcast. -/
theorem c8_validation_failure_atomic_witness :
    handle_new_block serTriv 0 node0 initialState
      { header := { block_number := 1, parent_hash := zeroHash, timestamp := 0,
                    merkle_root := zeroHash, validator := node0, difficulty := 0, nonce := 0 },
        transactions := [],
        zk_proof := { proof_data := [], public_inputs := [], verification_key := [],
                      proof_type := .Groth16 } } = .ok (initialState, {}) :=
  c8_validation_failure_atomic serTriv 0 node0 initialState _ (.inl rfl)

/-! ## Helper lemmas about `handle_new_block` (shared between claims) -/

lemma hnb_reject_of_bad_proof (ser : Serializer) (now : Int) (node_id : NodeId)
    (st : SysState) (block : Block) (h : verify_proof block.zk_proof = .ok false) :
    handle_new_block ser now node_id st block = .ok (st, {}) := by
  simp [handle_new_block, h]

lemma hnb_reject_of_bad_structure (ser : Serializer) (now : Int) (node_id : NodeId)
    (st : SysState) (block : Block)
    (h : verify_block_structure ser st.consensus st.storage block = false) :
    handle_new_block ser now node_id st block = .ok (st, {}) := by
  simp only [handle_new_block, verify_proof, h]
  cases (!block.zk_proof.proof_data.isEmpty && !block.zk_proof.public_inputs.isEmpty &&
    decide (64 ≤ block.zk_proof.proof_data.length)) <;> simp

lemma hnb_accept (ser : Serializer) (now : Int) (node_id : NodeId)
    (st : SysState) (block : Block)
    (h1 : verify_proof block.zk_proof = .ok true)
    (h2 : verify_block_structure ser st.consensus st.storage block = true) :
    handle_new_block ser now node_id st block =
      .ok ({ consensus := st.consensus, storage := store_block st.storage block },
           { votes := [{ block_hash := Block.hash ser block, validator := node_id,
                         vote := .Approve, timestamp := now, signature := [] }] }) := by
  simp [handle_new_block, h1, h2]

lemma hnb_consensus_unchanged (ser : Serializer) (now : Int) (node_id : NodeId)
    (st : SysState) (block : Block) :
    ∃ storage' sent, handle_new_block ser now node_id st block =
      .ok ({ consensus := st.consensus, storage := storage' }, sent) := by
  cases h1 : verify_proof block.zk_proof with
  | error e => exact absurd h1 (by simp [verify_proof])
  | ok b =>
    cases b with
    | false =>
        refine ⟨st.storage, {}, ?_⟩
        rw [hnb_reject_of_bad_proof ser now node_id st block h1]
    | true =>
      cases h2 : verify_block_structure ser st.consensus st.storage block with
      | false =>
          refine ⟨st.storage, {}, ?_⟩
          rw [hnb_reject_of_bad_structure ser now node_id st block h2]
      | true => exact ⟨_, _, hnb_accept ser now node_id st block h1 h2⟩

/-! ## C1 -/

lemma check_block_finality_some (s : ConsensusState) (stor : StorageManager) (h : Hash32)
    (c' : ConsensusState) (hc : check_block_finality s stor h = some c') : c' = s := by
  simp only [check_block_finality] at hc
  split at hc
  · cases hc
  · injection hc with hc
    exact hc.symm

/-- C1 amended: across the `NewBlock`, `BlockVote`, `ZKProofRequest` and
`ZKProofResponse` handlers the consensus state left in memory never carries
a smaller `current_block` — both when the handler completes and when the
vote handler hangs in the finality deadlock, where the state is simply
unchanged.  The `ConsensusState` handler is the exception (see the
counterexample), since it replaces the state wholesale. -/
theorem c1_monotonic_except_state_sync (ser : Serializer) (now : Int) (node_id : NodeId)
    (st : SysState) (msg : ConsensusMessage)
    (hmsg : ∀ cs, msg ≠ ConsensusMessage.ConsensusState cs) :
    ∀ st' sent,
      (handle_message ser now node_id st msg = .ok st' sent ∨
       handle_message ser now node_id st msg = .deadlock st' sent) →
      st.consensus.current_block ≤ st'.consensus.current_block := by
  intro st' sent h
  cases msg with
  | NewBlock block =>
      obtain ⟨storage', sent0, heq⟩ := hnb_consensus_unchanged ser now node_id st block
      rw [show handle_message ser now node_id st (.NewBlock block) =
        liftResult (handle_new_block ser now node_id st block) from rfl, heq] at h
      rcases h with h | h
      · cases h
        exact le_refl _
      · cases h
  | BlockVote vote =>
      rw [show handle_message ser now node_id st (.BlockVote vote) =
        handle_block_vote st vote from rfl, handle_block_vote_eq] at h
      cases hc : check_block_finality st.consensus (store_vote st.storage vote)
          vote.block_hash with
      | some c' =>
          rw [hc] at h
          rcases h with h | h
          · cases h
            rw [check_block_finality_some _ _ _ _ hc]
          · cases h
      | none =>
          rw [hc] at h
          rcases h with h | h
          · cases h
          · cases h
            exact le_refl _
  | ConsensusState s => exact absurd rfl (hmsg s)
  | ZKProofRequest request =>
      cases hg : get_block st.storage request.block_number with
      | none =>
          rw [show handle_message ser now node_id st (.ZKProofRequest request) =
            liftResult (handle_proof_request node_id st request) from rfl] at h
          simp only [handle_proof_request, hg] at h
          rcases h with h | h
          · cases h; exact le_refl _
          · cases h
      | some b =>
          rw [show handle_message ser now node_id st (.ZKProofRequest request) =
            liftResult (handle_proof_request node_id st request) from rfl] at h
          simp only [handle_proof_request, hg] at h
          rcases h with h | h
          · cases h; exact le_refl _
          · cases h
  | ZKProofResponse response =>
      rw [show handle_message ser now node_id st (.ZKProofResponse response) =
        liftResult (handle_proof_response st response) from rfl] at h
      simp only [handle_proof_response, verify_proof] at h
      rcases h with h | h
      · cases h; exact le_refl _
      · cases h

/-- C1's amended statement exercised at a concrete input: a sub-quorum vote
message on the initial state completes and keeps `current_block`
non-decreasing. -/
theorem c1_monotonic_except_state_sync_witness :
    initialState.consensus.current_block ≤
      ({ consensus := initialState.consensus,
         storage := store_vote initialState.storage (mkApproveVote hash0 node1) }
        : SysState).consensus.current_block :=
  c1_monotonic_except_state_sync serTriv 0 node0 initialState
    (.BlockVote (mkApproveVote hash0 node1))
    (fun _ h => ConsensusMessage.noConfusion h) _ {} (.inl rfl)

/-- C1 counterexample: delivering `ConsensusState` messages is a handled
inbound message kind, yet it can decrease `current_block`: from the initial
state, a first state-sync raises the height to 1 and a second one lowers it
back to 0. -/
theorem c1_counterexample :
    handle_message serTriv 0 node0 initialState
        (.ConsensusState { current_block := 1, validators := [], total_stake := 0, epoch := 0 })
      = .ok { consensus := { current_block := 1, validators := [], total_stake := 0, epoch := 0 },
              storage := StorageManager.new } {} ∧
    handle_message serTriv 0 node0
        { consensus := { current_block := 1, validators := [], total_stake := 0, epoch := 0 },
          storage := StorageManager.new }
        (.ConsensusState { current_block := 0, validators := [], total_stake := 0, epoch := 0 })
      = .ok { consensus := { current_block := 0, validators := [], total_stake := 0, epoch := 0 },
              storage := StorageManager.new } {} ∧
    ({ current_block := 0, validators := [], total_stake := 0, epoch := 0 }
        : ConsensusState).current_block <
      ({ current_block := 1, validators := [], total_stake := 0, epoch := 0 }
        : ConsensusState).current_block :=
  ⟨rfl, rfl, by decide⟩

/-! ## C3 -/

/-- C3 amended: an incoming `NewBlock` is persisted and voted on exactly when
its proof verifies and the structural check passes, where the structural
check requires the height to be `current_block + 1`, the parent hash to
match the latest stored block's hash ONLY when such a block exists (when the
store is empty the parent hash is not checked at all), and the Merkle root
to match the recomputation; a block failing a check is dropped with the
consensus state (in particular `current_block`) unchanged. -/
theorem c3_structural_verification (ser : Serializer) (now : Int) (node_id : NodeId)
    (st : SysState) (block : Block) :
    (verify_block_structure ser st.consensus st.storage block = true ↔
      (block.header.block_number = st.consensus.current_block + 1 ∧
       (∀ last, get_latest_block st.storage = some last →
          block.header.parent_hash = Block.hash ser last) ∧
       block.header.merkle_root = calculate_merkle_root ser block.transactions)) ∧
    (verify_proof block.zk_proof = .ok true →
      verify_block_structure ser st.consensus st.storage block = true →
      handle_new_block ser now node_id st block =
        .ok ({ consensus := st.consensus, storage := store_block st.storage block },
             { votes := [{ block_hash := Block.hash ser block, validator := node_id,
                           vote := .Approve, timestamp := now, signature := [] }] })) ∧
    (verify_block_structure ser st.consensus st.storage block = false →
      handle_new_block ser now node_id st block = .ok (st, {})) := by
  refine ⟨?_, hnb_accept ser now node_id st block,
    hnb_reject_of_bad_structure ser now node_id st block⟩
  unfold verify_block_structure
  split
  · rename_i hne
    constructor
    · intro h; simp at h
    · rintro ⟨h1, -, -⟩; exact absurd h1 hne
  · rename_i hne
    rw [not_not] at hne
    cases hG : get_latest_block st.storage with
    | none => simp [hne]
    | some last =>
        dsimp only
        split
        · rename_i hpne
          constructor
          · intro h; simp at h
          · rintro ⟨-, h2, -⟩; exact absurd (h2 last rfl) hpne
        · rename_i hpeq
          rw [not_not] at hpeq
          simp [hne, hpeq]

/-- C3's amended acceptance path exercised concretely (the same input as the
counterexample, through the theorem's accept branch). -/
theorem c3_structural_verification_witness :
    handle_new_block serTriv 0 node0 initialState
      { header := { block_number := 1, parent_hash := List.replicate 32 (1 : Byte),
                    timestamp := 0, merkle_root := zeroHash, validator := node1,
                    difficulty := 0, nonce := 0 },
        transactions := [],
        zk_proof := { proof_data := List.replicate 64 (1 : Byte), public_inputs := [0],
                      verification_key := [], proof_type := .Groth16 } } =
      .ok ({ consensus := initialState.consensus,
             storage := store_block initialState.storage
               { header := { block_number := 1, parent_hash := List.replicate 32 (1 : Byte),
                             timestamp := 0, merkle_root := zeroHash, validator := node1,
                             difficulty := 0, nonce := 0 },
                 transactions := [],
                 zk_proof := { proof_data := List.replicate 64 (1 : Byte), public_inputs := [0],
                               verification_key := [], proof_type := .Groth16 } } },
           { votes := [{ block_hash := Block.hash serTriv
                           { header := { block_number := 1,
                                         parent_hash := List.replicate 32 (1 : Byte),
                                         timestamp := 0, merkle_root := zeroHash,
                                         validator := node1, difficulty := 0, nonce := 0 },
                             transactions := [],
                             zk_proof := { proof_data := List.replicate 64 (1 : Byte),
                                           public_inputs := [0], verification_key := [],
                                           proof_type := .Groth16 } },
                         validator := node0, vote := .Approve, timestamp := 0,
                         signature := [] }] }) :=
  (c3_structural_verification serTriv 0 node0 initialState _).2.1 rfl rfl

/-- C3 counterexample: with nothing stored, a block whose `parent_hash` is
NOT the all-zero hash still passes verification, is persisted and is voted
on — the parent-hash condition the claim states for the empty-store case is
never checked by the code. -/
theorem c3_counterexample :
    get_latest_block initialState.storage = none ∧
    (List.replicate 32 (1 : Byte) : Hash32) ≠ zeroHash ∧
    verify_block_structure serTriv initialState.consensus initialState.storage
      { header := { block_number := 1, parent_hash := List.replicate 32 (1 : Byte),
                    timestamp := 0, merkle_root := zeroHash, validator := node1,
                    difficulty := 0, nonce := 0 },
        transactions := [],
        zk_proof := { proof_data := List.replicate 64 (1 : Byte), public_inputs := [0],
                      verification_key := [], proof_type := .Groth16 } } = true :=
  ⟨rfl, by decide, by decide⟩

/-! ## C6 -/

/-- C6 amended: on a tick the node decides to propose exactly when its node
id is a key of the validator map — `is_active` is never consulted — and,
whenever a latest stored block exists, at least `block_time` (12 s) has
elapsed since that block's timestamp; when no block is stored at all the
elapsed-time condition is not required. -/
theorem c6_should_propose_iff (now : Int) (node_id : NodeId) (st : SysState) :
    should_propose_block now node_id st = true ↔
      ((lookupValidator st.consensus.validators node_id).isSome ∧
       ∀ last, get_latest_block st.storage = some last →
         block_time ≤ now - last.header.timestamp) := by
  unfold should_propose_block
  cases hL : lookupValidator st.consensus.validators node_id with
  | none => simp
  | some vi =>
      rw [if_neg (by simp)]
      cases hG : get_latest_block st.storage with
      | none => simp
      | some last =>
          dsimp only
          constructor
          · intro h
            refine ⟨rfl, ?_⟩
            rintro l hl
            injection hl with hl
            subst hl
            by_contra hc
            rw [if_pos (not_le.mp hc)] at h
            exact absurd h (by simp)
          · rintro ⟨-, h2⟩
            rw [if_neg (not_lt.mpr (h2 last rfl))]

/-- C6's amended statement exercised concretely: a registered validator with
an empty store decides to propose. -/
theorem c6_should_propose_iff_witness :
    should_propose_block 0 node0
      { consensus := { current_block := 0,
                       validators := [(node0, { stake := 0, is_active := true,
                                                last_block_time := 0, performance_score := 0 })],
                       total_stake := 0, epoch := 0 },
        storage := StorageManager.new } = true :=
  (c6_should_propose_iff 0 node0 _).mpr ⟨by decide, fun last hl => Option.noConfusion hl⟩

/-- C6 counterexample: a node whose validator entry has `is_active = false`
still decides to propose (with an empty store), because the code only checks
key membership, never `is_active`. -/
theorem c6_counterexample :
    should_propose_block 0 node0
      { consensus := { current_block := 0,
                       validators := [(node0, { stake := 0, is_active := false,
                                                last_block_time := 0, performance_score := 0 })],
                       total_stake := 0, epoch := 0 },
        storage := StorageManager.new } = true ∧
    (({ stake := 0, is_active := false, last_block_time := 0,
        performance_score := 0 } : ValidatorInfo)).is_active = false :=
  ⟨by decide, rfl⟩

/-! ## C9 -/

/-- A validator snapshot that has been inactive since time 0 with an `f64`
performance score of 0.5. -/
def vinfoHalf : ValidatorInfo :=
  { stake := 0, is_active := true, last_block_time := 0, performance_score := roundF64 (1/2) }

/-- C9: on a tick, every validator's score moves by the `f64` computation
`min(score + 0.1, 1.0)` when the validator was active within 5 minutes and
`max(score - 0.05, 0.0)` otherwise; a validator inactive for 10 minutes with
score 0.5 decays to exactly the `f64` value 0.45 in one tick, keeps losing
(the `f64` rounding of) 0.05 per tick, and is floored at exactly 0 from the
11th decay tick on. -/
theorem c9_performance_decay :
    (∀ now state, (update_consensus_state now state).validators =
       state.validators.map (fun p => (p.1, updateValidatorScore now p.2))) ∧
    (∀ now v, now - v.last_block_time < five_minutes →
       (updateValidatorScore now v).performance_score =
         fminQ (fadd v.performance_score lit01) 1) ∧
    (∀ now v, five_minutes ≤ now - v.last_block_time →
       (updateValidatorScore now v).performance_score =
         fmaxQ (fsub v.performance_score lit005) 0) ∧
    ((updateValidatorScore 600000000000 vinfoHalf).performance_score = roundF64 (45/100)) ∧
    ((fun s => fmaxQ (fsub s lit005) 0)^[11] (roundF64 (1/2)) = 0 ∧
     ∀ n, (fun s => fmaxQ (fsub s lit005) 0)^[11 + n] (roundF64 (1/2)) = 0) := by
  have hstep0 : fmaxQ (fsub 0 lit005) 0 = 0 := by with_unfolding_all rfl
  have h11 : (fun s => fmaxQ (fsub s lit005) 0)^[11] (roundF64 (1/2)) = 0 := by
    with_unfolding_all rfl
  refine ⟨fun now state => rfl, ?_, ?_, ?_, h11, ?_⟩
  · intro now v h
    unfold updateValidatorScore
    rw [if_pos h]
  · intro now v h
    unfold updateValidatorScore
    rw [if_neg (by omega)]
  · show (updateValidatorScore 600000000000 vinfoHalf).performance_score = roundF64 (45/100)
    with_unfolding_all rfl
  · intro n
    induction n with
    | zero => exact h11
    | succ n ih =>
        have : 11 + (n + 1) = (11 + n) + 1 := by omega
        rw [this, Function.iterate_succ_apply', ih]
        exact hstep0

/-- C9 exercised concretely: the 10-minutes-inactive validator takes the
decay branch of the update. -/
theorem c9_performance_decay_witness :
    (updateValidatorScore 600000000000 vinfoHalf).performance_score =
      fmaxQ (fsub vinfoHalf.performance_score lit005) 0 :=
  (c9_performance_decay).2.2.1 600000000000 vinfoHalf (by decide)

/-! ## Lemmas about the hex vote keys, shared by C4 and C10 -/

lemma hexDigit_injective : ∀ i j : Fin 16, hexDigit i = hexDigit j → i = j := by decide

lemma hexEncode_cons (b : Byte) (bs : List Byte) :
    hexEncode (b :: bs) =
      hexDigit ⟨b.val / 16, by omega⟩ :: hexDigit ⟨b.val % 16, by omega⟩ :: hexEncode bs := rfl

lemma hexEncode_length (bs : List Byte) : (hexEncode bs).length = 2 * bs.length := by
  induction bs with
  | nil => rfl
  | cons b t ih => rw [hexEncode_cons]; simp [ih]; omega

lemma hexEncode_injective : ∀ {a b : List Byte}, hexEncode a = hexEncode b → a = b := by
  intro a
  induction a with
  | nil =>
      intro b h
      cases b with
      | nil => rfl
      | cons y ys => rw [hexEncode_cons] at h; cases h
  | cons x xs ih =>
      intro b h
      cases b with
      | nil => rw [hexEncode_cons] at h; cases h
      | cons y ys =>
          rw [hexEncode_cons, hexEncode_cons] at h
          injection h with h1 h'
          injection h' with h2 h3
          have d1 : x.val / 16 = y.val / 16 := congrArg Fin.val (hexDigit_injective _ _ h1)
          have d2 : x.val % 16 = y.val % 16 := congrArg Fin.val (hexDigit_injective _ _ h2)
          have hxy : x = y := by
            apply Fin.ext
            omega
          rw [hxy, ih h3]

lemma hex_isPrefixOf_mkVoteKey_self (v : BlockVote) :
    (hexEncode v.block_hash).isPrefixOf (mkVoteKey v) = true := by
  unfold mkVoteKey
  rw [List.isPrefixOf_iff_prefix]
  exact List.prefix_append _ _

/-- The 64-character hex prefix of a stored key determines the block hash,
given equal hash lengths. -/
lemma key_pfx_iff (h : Hash32) (w : BlockVote) (hlen : w.block_hash.length = h.length) :
    (hexEncode h).isPrefixOf (mkVoteKey w) = true ↔ w.block_hash = h := by
  constructor
  · intro hp
    rw [List.isPrefixOf_iff_prefix] at hp
    obtain ⟨t, ht⟩ := hp
    unfold mkVoteKey at ht
    have hql : (hexEncode h).length = (hexEncode w.block_hash).length := by
      rw [hexEncode_length, hexEncode_length, hlen]
    exact (hexEncode_injective (List.append_inj_left ht hql)).symm
  · rintro rfl
    exact hex_isPrefixOf_mkVoteKey_self w

/-- The stored votes for `h` whose payload further satisfies `q`; both the
Approve count of C2/C4 and the per-validator view of C10 have this shape. -/
def votesMatching (h : Hash32) (q : BlockVote → Bool)
    (l : List (List Char × BlockVote)) : List BlockVote :=
  ((l.filter (fun p => (hexEncode h).isPrefixOf p.1)).map Prod.snd).filter q

lemma votesMatching_cons (h : Hash32) (q : BlockVote → Bool)
    (p : List Char × BlockVote) (l : List (List Char × BlockVote)) :
    votesMatching h q (p :: l) =
      (if ((hexEncode h).isPrefixOf p.1 && q p.2) then [p.2] else []) ++ votesMatching h q l := by
  unfold votesMatching
  cases hpf : (hexEncode h).isPrefixOf p.1 <;> cases hq : q p.2 <;>
    simp [List.filter_cons, hpf, hq]

lemma votesMatching_filter_ne (h : Hash32) (q : BlockVote → Bool) (k : List Char)
    (A : List (List Char × BlockVote))
    (hk : ∀ p ∈ A, p.1 = k → ((hexEncode h).isPrefixOf p.1 && q p.2) = false) :
    votesMatching h q (A.filter (fun p => decide (p.1 ≠ k))) = votesMatching h q A := by
  induction A with
  | nil => rfl
  | cons p t ih =>
      have hk' : ∀ p ∈ t, p.1 = k → ((hexEncode h).isPrefixOf p.1 && q p.2) = false :=
        fun r hr => hk r (List.mem_cons_of_mem _ hr)
      by_cases hpk : p.1 = k
      · have hc : decide (p.1 ≠ k) = false := by simp [hpk]
        rw [List.filter_cons, hc, if_neg Bool.false_ne_true, votesMatching_cons,
          hk p (List.mem_cons_self _ _) hpk, if_neg Bool.false_ne_true, List.nil_append]
        exact ih hk'
      · have hc : decide (p.1 ≠ k) = true := by simp [hpk]
        rw [List.filter_cons, hc, if_pos rfl, votesMatching_cons, votesMatching_cons, ih hk']

lemma votesMatching_filter_ne_ge (h : Hash32) (q : BlockVote → Bool) (k : List Char)
    (A : List (List Char × BlockVote)) (hnodup : (A.map Prod.fst).Nodup) :
    (votesMatching h q A).length ≤
      (votesMatching h q (A.filter (fun p => decide (p.1 ≠ k)))).length + 1 := by
  induction A with
  | nil => simp [votesMatching]
  | cons p t ih =>
      rw [List.map_cons, List.nodup_cons] at hnodup
      by_cases hpk : p.1 = k
      · have hall : t.filter (fun r => decide (r.1 ≠ k)) = t := by
          apply List.filter_eq_self.mpr
          intro r hr
          have hne : r.1 ≠ k := by
            intro hrk
            have hmem : r.1 ∈ t.map Prod.fst := List.mem_map_of_mem Prod.fst hr
            rw [hrk, ← hpk] at hmem
            exact hnodup.1 hmem
          simp [hne]
        have hc : decide (p.1 ≠ k) = false := by simp [hpk]
        rw [List.filter_cons, hc, if_neg Bool.false_ne_true, hall, votesMatching_cons]
        split
        · simp only [List.length_append, List.length_cons, List.length_nil]
          omega
        · simp only [List.length_append, List.length_nil]
          omega
      · have hc : decide (p.1 ≠ k) = true := by simp [hpk]
        rw [List.filter_cons, hc, if_pos rfl, votesMatching_cons, votesMatching_cons]
        have hih := ih hnodup.2
        split
        · simp only [List.length_append, List.length_cons, List.length_nil]
          omega
        · simp only [List.length_append, List.length_nil]
          omega

/-! ## C4 -/

lemma approveCountFor_eq_votesMatching (s : StorageManager) (h : Hash32) :
    approveCountFor s h =
      (votesMatching h (fun v => decide (v.vote = VoteType.Approve)) s.votes).length := rfl

/-- Storing one further `Approve` vote for its own block hash never lowers
the stored Approve count for that hash (assuming the store's keys are
duplicate-free, which `store_vote` maintains). -/
lemma approveCount_store_ge (s : StorageManager) (v : BlockVote)
    (hnodup : (s.votes.map Prod.fst).Nodup) (happ : v.vote = VoteType.Approve) :
    approveCountFor s v.block_hash ≤ approveCountFor (store_vote s v) v.block_hash := by
  rw [approveCountFor_eq_votesMatching, approveCountFor_eq_votesMatching]
  show _ ≤ (votesMatching v.block_hash _ ((mkVoteKey v, v) ::
    s.votes.filter (fun p => decide (p.1 ≠ mkVoteKey v)))).length
  rw [votesMatching_cons,
    if_pos (by rw [hex_isPrefixOf_mkVoteKey_self, happ]; simp)]
  have := votesMatching_filter_ne_ge v.block_hash
    (fun w => decide (w.vote = VoteType.Approve)) (mkVoteKey v) s.votes hnodup
  simp only [List.length_append, List.length_cons, List.length_nil]
  omega

/-- C4 amended: no further vote ever increments `current_block` again.  When
the stored votes for a hash already contain at least 3 `Approve` votes, one
further APPROVE vote for that hash does re-enter the quorum branch (finality
is not latched) — but that branch self-deadlocks on the state lock, so the
vote is persisted, the handler never returns, and `current_block` stays
unchanged; a further non-Approve vote can overwrite one of exactly three
stored Approve votes, drop the count below quorum, and complete without an
increment (see the counterexample). -/
theorem c4_refinalize_deadlocks (st : SysState) (v : BlockVote)
    (hnodup : (st.storage.votes.map Prod.fst).Nodup)
    (happ : v.vote = VoteType.Approve)
    (hcount : 3 ≤ approveCountFor st.storage v.block_hash) :
    handle_block_vote st v =
      .deadlock { consensus := st.consensus, storage := store_vote st.storage v } {} := by
  have h3 : 3 ≤ approveCountFor (store_vote st.storage v) v.block_hash :=
    le_trans hcount (approveCount_store_ge st.storage v hnodup happ)
  exact hbv_deadlock_of_quorum st v h3

/-- The three-Approve vote fixture used by C4. -/
def votes3 : List BlockVote :=
  [mkApproveVote hash0 node1, mkApproveVote hash0 node2, mkApproveVote hash0 node3]

def rejVote : BlockVote :=
  { block_hash := hash0, validator := node1, vote := .Reject, timestamp := 0, signature := [] }

/-- C4's amended statement exercised concretely: a fourth `Approve` vote for
a hash that already has three stored approves is persisted and then the
handler hangs in the finality deadlock, with the height still 1. -/
theorem c4_refinalize_deadlocks_witness :
    handle_block_vote
        { consensus := { current_block := 1, validators := [], total_stake := 0, epoch := 0 },
          storage := applyVotes votes3 } (mkApproveVote hash0 node0) =
      .deadlock { consensus := { current_block := 1, validators := [], total_stake := 0,
                                 epoch := 0 },
                  storage := store_vote (applyVotes votes3) (mkApproveVote hash0 node0) } {} :=
  c4_refinalize_deadlocks _ _ (by decide) rfl (by decide)

/-- C4 counterexample: with exactly the three stored `Approve` votes of
`votes3`, a further `BlockVote` for the same hash — a `Reject` from one of
the three approvers — overwrites that approver's vote, the count drops to 2,
and `current_block` stays at 7 instead of being incremented. -/
theorem c4_counterexample :
    3 ≤ approveCountFor (applyVotes votes3) hash0 ∧
    rejVote.block_hash = hash0 ∧
    handle_block_vote
        { consensus := { current_block := 7, validators := [], total_stake := 0, epoch := 0 },
          storage := applyVotes votes3 } rejVote =
      .ok { consensus := { current_block := 7, validators := [], total_stake := 0, epoch := 0 },
            storage := store_vote (applyVotes votes3) rejVote } {} :=
  ⟨by decide, rfl, rfl⟩

/-! ## C10 -/

/-- The last vote in a sequence carrying the given block hash and validator. -/
def lastVoteFor (vs : List BlockVote) (h : Hash32) (val : NodeId) : Option BlockVote :=
  (vs.filter (fun w => decide (w.block_hash = h) && decide (w.validator = val))).getLast?

lemma applyVotes_append_one (vs : List BlockVote) (v : BlockVote) :
    applyVotes (vs ++ [v]) = store_vote (applyVotes vs) v := by
  simp [applyVotes, List.foldl_append]

/-- Every entry of a replayed store is keyed by its own vote's key. -/
lemma applyVotes_entries (vs : List BlockVote) :
    ∀ p ∈ (applyVotes vs).votes, p.1 = mkVoteKey p.2 ∧ p.2 ∈ vs := by
  induction vs using List.reverseRecOn with
  | nil => intro p hp; cases hp
  | append_singleton t v ih =>
      intro p hp
      rw [applyVotes_append_one] at hp
      rcases List.mem_cons.mp hp with rfl | hp2
      · exact ⟨rfl, List.mem_append_right _ (List.mem_singleton.mpr rfl)⟩
      · obtain ⟨h1, h2⟩ := ih p (List.mem_of_mem_filter hp2)
        exact ⟨h1, List.mem_append_left _ h2⟩

lemma mkVoteKey_inj (w v : BlockVote) (hlen : w.block_hash.length = v.block_hash.length)
    (hk : mkVoteKey w = mkVoteKey v) : w.block_hash = v.block_hash ∧ w.validator = v.validator := by
  unfold mkVoteKey at hk
  have hql : (hexEncode w.block_hash).length = (hexEncode v.block_hash).length := by
    rw [hexEncode_length, hexEncode_length, hlen]
  have h1 := List.append_inj_left hk hql
  have h2 := List.append_inj_right hk hql
  refine ⟨hexEncode_injective h1, ?_⟩
  injection h2 with _ h3
  exact hexEncode_injective h3

lemma votesMatching_eq_nil (h : Hash32) (q : BlockVote → Bool)
    (l : List (List Char × BlockVote))
    (hall : ∀ p ∈ l, ((hexEncode h).isPrefixOf p.1 && q p.2) = false) :
    votesMatching h q l = [] := by
  induction l with
  | nil => rfl
  | cons p t ih =>
      rw [votesMatching_cons, hall p (List.mem_cons_self _ _), if_neg Bool.false_ne_true,
        List.nil_append]
      exact ih (fun r hr => hall r (List.mem_cons_of_mem _ hr))

/-- C10: after any sequence of `store_vote` calls, the stored votes that
`get_votes_for_block` returns for a hash contain, for each validator, exactly
the LAST vote of the sequence with that (validator, block hash) — a second
vote for the same pair overwrites the first rather than accumulating. -/
theorem c10_last_write_wins (vs : List BlockVote) (h : Hash32) (val : NodeId)
    (hwf : ∀ w ∈ vs, w.block_hash.length = h.length) :
    (get_votes_for_block (applyVotes vs) h).filter (fun w => decide (w.validator = val))
      = (lastVoteFor vs h val).toList := by
  induction vs using List.reverseRecOn with
  | nil => rfl
  | append_singleton t v ih =>
      have hwf_t : ∀ w ∈ t, w.block_hash.length = h.length :=
        fun w hw => hwf w (List.mem_append_left _ hw)
      have hv : v.block_hash.length = h.length :=
        hwf v (List.mem_append_right _ (List.mem_singleton.mpr rfl))
      have ihh := ih hwf_t
      rw [applyVotes_append_one]
      have lhs_eq : (get_votes_for_block (store_vote (applyVotes t) v) h).filter
          (fun w => decide (w.validator = val)) =
          votesMatching h (fun w => decide (w.validator = val))
            ((mkVoteKey v, v) ::
              (applyVotes t).votes.filter (fun p => decide (p.1 ≠ mkVoteKey v))) := rfl
      have ih_eq : votesMatching h (fun w => decide (w.validator = val)) (applyVotes t).votes
          = (lastVoteFor t h val).toList := ihh
      rw [lhs_eq, votesMatching_cons]
      unfold lastVoteFor
      rw [List.filter_append]
      by_cases hbh : v.block_hash = h
      · have hpfx : (hexEncode h).isPrefixOf (mkVoteKey v) = true := (key_pfx_iff h v hv).mpr hbh
        by_cases hvv : v.validator = val
        · have hrest : votesMatching h (fun w => decide (w.validator = val))
              ((applyVotes t).votes.filter (fun p => decide (p.1 ≠ mkVoteKey v))) = [] := by
            apply votesMatching_eq_nil
            intro p hp
            have hpneq : p.1 ≠ mkVoteKey v := by
              have := List.of_mem_filter hp
              simpa using this
            obtain ⟨hkey, hmem⟩ := applyVotes_entries t p (List.mem_of_mem_filter hp)
            by_contra hne0
            have hb : ((hexEncode h).isPrefixOf p.1 && decide (p.2.validator = val)) = true := by
              revert hne0
              cases ((hexEncode h).isPrefixOf p.1 && decide (p.2.validator = val)) <;> simp
            rw [Bool.and_eq_true] at hb
            have hpbh : p.2.block_hash = h := by
              have := hb.1
              rw [hkey] at this
              exact (key_pfx_iff h p.2 (hwf_t p.2 hmem)).mp this
            have hpval : p.2.validator = val := by simpa using hb.2
            apply hpneq
            rw [hkey]
            unfold mkVoteKey
            rw [hpbh, hbh, hpval, hvv]
          rw [if_pos (by simp [hpfx, hvv]), hrest]
          have hone : List.filter
              (fun w => decide (w.block_hash = h) && decide (w.validator = val)) [v] = [v] := by
            simp [hbh, hvv]
          rw [hone, List.getLast?_concat]
          rfl
        · have hfil : votesMatching h (fun w => decide (w.validator = val))
              ((applyVotes t).votes.filter (fun p => decide (p.1 ≠ mkVoteKey v))) =
              votesMatching h (fun w => decide (w.validator = val)) (applyVotes t).votes := by
            apply votesMatching_filter_ne
            intro p hp hpk
            obtain ⟨hkey, hmem⟩ := applyVotes_entries t p hp
            have hkeys : mkVoteKey p.2 = mkVoteKey v := by rw [← hkey, hpk]
            have hsame := mkVoteKey_inj p.2 v (by rw [hwf_t p.2 hmem, hv]) hkeys
            have : decide (p.2.validator = val) = false := by
              simp [hsame.2, hvv]
            rw [this, Bool.and_false]
          rw [if_neg (by simp [hvv]), List.nil_append, hfil, ih_eq]
          have hnone : List.filter
              (fun w => decide (w.block_hash = h) && decide (w.validator = val)) [v] = [] := by
            simp [hvv]
          rw [hnone, List.append_nil]
          rfl
      · have hpfx : (hexEncode h).isPrefixOf (mkVoteKey v) = false := by
          cases hx : (hexEncode h).isPrefixOf (mkVoteKey v)
          · rfl
          · exact absurd ((key_pfx_iff h v hv).mp hx) hbh
        have hfil : votesMatching h (fun w => decide (w.validator = val))
            ((applyVotes t).votes.filter (fun p => decide (p.1 ≠ mkVoteKey v))) =
            votesMatching h (fun w => decide (w.validator = val)) (applyVotes t).votes := by
          apply votesMatching_filter_ne
          intro p hp hpk
          rw [hpk, hpfx, Bool.false_and]
        rw [if_neg (by simp [hpfx]), List.nil_append, hfil, ih_eq]
        have hnone : List.filter
            (fun w => decide (w.block_hash = h) && decide (w.validator = val)) [v] = [] := by
          simp [hbh]
        rw [hnone, List.append_nil]
        rfl

/-- C10 exercised concretely: an `Approve` from `node1` followed by a
`Reject` from `node1` for the same hash leaves exactly the `Reject` as
`node1`'s single stored vote. -/
theorem c10_last_write_wins_witness :
    (get_votes_for_block (applyVotes [mkApproveVote hash0 node1, rejVote]) hash0).filter
        (fun w => decide (w.validator = node1))
      = (lastVoteFor [mkApproveVote hash0 node1, rejVote] hash0 node1).toList ∧
    lastVoteFor [mkApproveVote hash0 node1, rejVote] hash0 node1 = some rejVote :=
  ⟨c10_last_write_wins [mkApproveVote hash0 node1, rejVote] hash0 node1 (by decide), by decide⟩

end ZkPov
